import Mathlib

/-!
Verification of the xns-xelis-name-service repository.

Part 1 embeds the browser-side JavaScript of the XNS frontend
(`src/frontend/js/xns-contract.js`, `src/frontend/js/daemon-rpc.js`, and the
XSWD client holding `serializeU64`).  Machine numbers are modelled as `Nat`
with explicit `% 2 ^ 32` where JavaScript bitwise operators truncate.

Part 2 models the `post_office_audit` engine.  Its Python source
(`master_pipeline_standalone.py` / `audit.py`) is not part of the source
tree — only its README is — so those definitions are modelled from the
specification, as marked in their doc comments.
-/

/-! ## Part 1: XNS frontend JavaScript -/

/-- `const ATOMIC_UNIT = 100000000;` from `xns-contract.js`. -/
def ATOMIC_UNIT : Nat := 100000000

/-- `const CONTRACT_ADDRESS = "eb7a..."` from `xns-contract.js`. -/
def CONTRACT_ADDRESS : String :=
  "eb7a0d88c570da29201f26d29896a9b6e604c5ea9259b596cea1e9763bb6f097"

/-- The data handed to `xswd.invokeContract` by the contract wrappers:
contract hash, entry id, string arguments, the XEL deposit attached, and the
gas limit. -/
structure ContractInvocation where
  contract : String
  entryId : Nat
  args : List String
  depositAmount : Nat
  maxGas : Nat
deriving DecidableEq

namespace XNSContract

/-- Embeds `XNSContract.register` from `src/frontend/js/xns-contract.js`
(lines 29–44): `isShort = name.length >= 3 && name.length <= 4`,
`price = isShort ? 50 * ATOMIC_UNIT : 10 * ATOMIC_UNIT`, then
`invokeContract(CONTRACT_ADDRESS, ENTRY_IDS.register, [name], {XEL: price},
100000000)`.  No check of the name is performed before building the call. -/
def register (name : String) : ContractInvocation :=
  let isShort : Bool := decide (3 ≤ name.length ∧ name.length ≤ 4)
  let price : Nat := if isShort then 50 * ATOMIC_UNIT else 10 * ATOMIC_UNIT
  { contract := CONTRACT_ADDRESS
    entryId := 25
    args := [name]
    depositAmount := price
    maxGas := 100000000 }

/-- JavaScript `ToUint32`: the value seen by `>>>` and the value whose low
bits `&` reads. -/
def toUint32 (v : Nat) : Nat := v % 4294967296

/-- `value & 0xff` on a nonnegative integer. -/
def andFF (v : Nat) : Nat := toUint32 v % 256

/-- `value >>> 8` on a nonnegative integer. -/
def shr8 (v : Nat) : Nat := toUint32 v / 256

/-- The loop body of `serializeU64`, unrolled by fuel: each step pushes
`value & 0xff` and replaces `value` with `value >>> 8`. -/
def serializeU64Go : Nat → Nat → List Nat
  | 0, _ => []
  | n + 1, value => andFF value :: serializeU64Go n (shr8 value)

/-- Embeds `XNSContract.serializeU64` from the XSWD client
(`src/unnamed/part_001`, lines 311–319): an 8-iteration loop over the
JavaScript bitwise operators `& 0xff` and `>>> 8`. -/
def serializeU64 (value : Nat) : List Nat := serializeU64Go 8 value

end XNSContract

/-- The record returned by `XNSReader.validateName`: `{valid, error?}`. -/
structure ValidationResult where
  valid : Bool
  error : Option String
deriving DecidableEq

/-- A character allowed by the regex `/^[a-z0-9_]+$/`: lowercase letter,
digit, or underscore. -/
def isNameChar (c : Char) : Bool :=
  decide ((97 ≤ c.toNat ∧ c.toNat ≤ 122) ∨ (48 ≤ c.toNat ∧ c.toNat ≤ 57) ∨
    c.toNat = 95)

namespace XNSReader

/-- Embeds `XNSReader.validateName` from `src/frontend/js/daemon-rpc.js`
(lines 187–199).  `!name` is the JavaScript falsiness test, which on strings
holds exactly for `""`; the regex test `/^[a-z0-9_]+$/.test(name)` holds
exactly when the string is nonempty and every character is in the class. -/
def validateName (name : String) : ValidationResult :=
  if name = "" ∨ name.length < 3 then
    ⟨false, some "Name must be at least 3 characters"⟩
  else if name.length > 32 then
    ⟨false, some "Name must be 32 characters or less"⟩
  else if ¬ (name.data ≠ [] ∧ name.data.all isNameChar) then
    ⟨false, some "Name can only contain lowercase letters, numbers, and underscores"⟩
  else
    ⟨true, none⟩

end XNSReader

/-! ## Theorems for the XNS frontend claims -/

/-- C8: `XNSContract.register` attaches a deposit of exactly 50 XEL
(5000000000 atomic units) when the name's length is 3 or 4 and exactly
10 XEL (1000000000 atomic units) for every other length — including 0, 1, 2
and lengths above 32 — and passes the name through unvalidated. -/
theorem register_deposit_by_length (name : String) :
    (XNSContract.register name).depositAmount =
      (if name.length = 3 ∨ name.length = 4 then 5000000000 else 1000000000) ∧
    (XNSContract.register name).args = [name] := by
  refine ⟨?_, rfl⟩
  by_cases h : name.length = 3 ∨ name.length = 4
  · have hs : decide (3 ≤ name.length ∧ name.length ≤ 4) = true := by
      rw [decide_eq_true_iff]; omega
    simp [XNSContract.register, hs, if_pos h, ATOMIC_UNIT]
  · have hs : decide (3 ≤ name.length ∧ name.length ≤ 4) = false := by
      rw [decide_eq_false_iff_not]; omega
    simp [XNSContract.register, hs, if_neg h, ATOMIC_UNIT]

/-- C9: `XNSReader.validateName` returns `valid = true` exactly when the name
has length between 3 and 32 and every character is a lowercase letter, digit
or underscore; in every other case it returns `valid = false` together with a
non-empty error message. -/
theorem validateName_valid_iff (name : String) :
    ((XNSReader.validateName name).valid = true ↔
      (3 ≤ name.length ∧ name.length ≤ 32 ∧ ∀ c ∈ name.data, isNameChar c = true)) ∧
    (((XNSReader.validateName name).valid = true ∧
        (XNSReader.validateName name).error = none) ∨
      (∃ msg, (XNSReader.validateName name).error = some msg ∧ 0 < msg.length ∧
        (XNSReader.validateName name).valid = false)) := by
  have hlen : name.length = name.data.length := rfl
  unfold XNSReader.validateName
  split
  · next h =>
    constructor
    · simp only [Bool.false_eq_true, false_iff]
      rintro ⟨h3, -, -⟩
      rcases h with h | h
      · subst h; simp at h3
      · omega
    · exact Or.inr ⟨_, rfl, by decide, rfl⟩
  · split
    · next h =>
      constructor
      · simp only [Bool.false_eq_true, false_iff]
        rintro ⟨-, h32, -⟩
        omega
      · exact Or.inr ⟨_, rfl, by decide, rfl⟩
    · split
      · next h1 h2 h =>
        constructor
        · simp only [Bool.false_eq_true, false_iff]
          rintro ⟨h3, -, hall⟩
          apply h
          constructor
          · intro hnil
            rw [hlen, hnil] at h3
            simp at h3
          · rw [List.all_eq_true]
            exact hall
        · exact Or.inr ⟨_, rfl, by decide, rfl⟩
      · next h1 h2 h =>
        rw [not_not] at h
        constructor
        · simp only [true_iff]
          refine ⟨by omega, by omega, ?_⟩
          rw [← List.all_eq_true]
          exact h.2
        · exact Or.inl ⟨rfl, rfl⟩

/-- C10: `XNSContract.serializeU64` always returns 8 bytes that are the
little-endian base-256 digits of `v % 2^32` followed by four zero bytes: the
JavaScript bitwise operators truncate the value to 32 bits, despite the
function's name. -/
theorem serializeU64_truncates_to_32_bits (v : Nat) :
    XNSContract.serializeU64 v =
      [v % 4294967296 % 256, v % 4294967296 / 256 % 256,
       v % 4294967296 / 65536 % 256, v % 4294967296 / 16777216 % 256,
       0, 0, 0, 0] ∧
    (XNSContract.serializeU64 v).length = 8 ∧
    (∀ b ∈ XNSContract.serializeU64 v, b ≤ 255) ∧
    (XNSContract.serializeU64 v).foldr (fun b acc => b + 256 * acc) 0 =
      v % 4294967296 := by
  have hlist : XNSContract.serializeU64 v =
      [v % 4294967296 % 256, v % 4294967296 / 256 % 256,
       v % 4294967296 / 65536 % 256, v % 4294967296 / 16777216 % 256,
       0, 0, 0, 0] := by
    simp only [XNSContract.serializeU64, XNSContract.serializeU64Go,
      XNSContract.andFF, XNSContract.shr8, XNSContract.toUint32,
      List.cons.injEq, and_true, eq_self_iff_true, true_and]
    omega
  refine ⟨hlist, ?_, ?_, ?_⟩ <;> rw [hlist]
  · rfl
  · intro b hb
    simp only [List.mem_cons, List.not_mem_nil, or_false] at hb
    rcases hb with h | h | h | h | h | h | h | h <;> omega
  · simp only [List.foldr]
    omega

/-! ## Part 2: the post_office_audit engine, modelled from the spec

The engine's Python source (`post_office_audit/master_pipeline_standalone.py`)
is not among the repository's staged files — only its README is — so the
definitions below are modelled from the specification, as their doc comments
state. -/

/-- Modelled from the spec: a character kept by normalization — an uppercase
letter or a digit; everything else is punctuation/whitespace and separates
words. -/
def isWordChar (c : Char) : Bool :=
  decide ((65 ≤ c.toNat ∧ c.toNat ≤ 90) ∨ (48 ≤ c.toNat ∧ c.toNat ≤ 57))

/-- Modelled from the spec: uppercasing of an ASCII letter ("Uppercases"). -/
def upChar (c : Char) : Char :=
  if 97 ≤ c.toNat ∧ c.toNat ≤ 122 then Char.ofNat (c.toNat - 32) else c

/-- One step of word splitting: a kept character joins the current word, any
other character closes it. -/
def splitAux (c : Char) (acc : List (List Char)) : List (List Char) :=
  if isWordChar (upChar c) then
    match acc with
    | [] => [[upChar c]]
    | w :: ws => (upChar c :: w) :: ws
  else
    [] :: acc

/-- Modelled from the spec: "Uppercases, strips punctuation except
alphanumerics and single separating spaces, collapses repeated whitespace" —
the uppercased alphanumeric words of a string, in order. -/
def toWords (l : List Char) : List (List Char) :=
  (l.foldr splitAux [[]]).filter (fun w => !w.isEmpty)

/-- Rejoin words with single separating spaces. -/
def unwords : List (List Char) → List Char
  | [] => []
  | [w] => w
  | w :: ws => w ++ ' ' :: unwords ws

/-- Modelled from the spec: the "fixed table of official street-type and
directional abbreviations (e.g., ST↔STREET, AVE↔AVENUE, N↔NORTH)", kept as
data, not code. -/
def abbrevTable : List (List Char × List Char) :=
  [("ST".data, "STREET".data),
   ("AVE".data, "AVENUE".data),
   ("RD".data, "ROAD".data),
   ("DR".data, "DRIVE".data),
   ("BLVD".data, "BOULEVARD".data),
   ("LN".data, "LANE".data),
   ("CT".data, "COURT".data),
   ("PKWY".data, "PARKWAY".data),
   ("N".data, "NORTH".data),
   ("S".data, "SOUTH".data),
   ("E".data, "EAST".data),
   ("W".data, "WEST".data)]

/-- Expand one word through the abbreviation table; words not in the table
are kept as they are. -/
def expandWord (w : List Char) : List Char :=
  match abbrevTable.find? (fun p => decide (p.1 = w)) with
  | some p => p.2
  | none => w

/-- Modelled from the spec: the "secondary/unit designators (APT, SUITE,
UNIT, #)"; `#` never survives normalization, so only the word forms appear. -/
def unitWords : List (List Char) :=
  ["APT".data, "SUITE".data, "UNIT".data, "STE".data]

/-- Modelled from the spec: "the primary normalized key excludes unit
information" — the words before the first unit designator. -/
def stripUnits (ws : List (List Char)) : List (List Char) :=
  ws.takeWhile (fun w => !(decide (w ∈ unitWords)))

/-- Modelled from the spec: `normalize` — the canonical comparable form of a
raw free-text address (§4.1): uppercase, punctuation stripped, whitespace
collapsed, unit designators separated off, abbreviations expanded. -/
def normalizeAddress (s : String) : String :=
  String.mk (unwords ((stripUnits (toWords s.data)).map expandWord))

/-- Modelled from the spec: "`zip5` is the first five digits of any
zip/postal code field". -/
def zip5 (z : String) : String :=
  String.mk ((z.data.filter Char.isDigit).take 5)

/-- Modelled from the spec: `NormalizedKey`, the value type
`(address_key, city_key, zip5)`. -/
structure NormalizedKey where
  address_key : String
  city_key : String
  zip5 : String
deriving DecidableEq

/-- Modelled from the spec: the normalized key of a record's address, city
and zip fields. -/
def normalizeKey (address city zip : String) : NormalizedKey :=
  ⟨normalizeAddress address, normalizeAddress city, zip5 zip⟩

/-! ## Normalizer lemmas -/

/-- Characters kept by normalization are already uppercase, so uppercasing
fixes them. -/
theorem upChar_of_isWordChar {c : Char} (h : isWordChar c = true) :
    upChar c = c := by
  rw [isWordChar, decide_eq_true_iff] at h
  rw [upChar, if_neg]
  omega

/-- Every character of every word produced by `splitAux` is a word
character, provided the accumulator already satisfies that. -/
theorem splitAux_chars {c : Char} {acc : List (List Char)}
    (hacc : ∀ w ∈ acc, ∀ d ∈ w, isWordChar d = true) :
    ∀ w ∈ splitAux c acc, ∀ d ∈ w, isWordChar d = true := by
  intro w hw d hd
  unfold splitAux at hw
  by_cases hg : isWordChar (upChar c) = true
  · rw [if_pos hg] at hw
    cases acc with
    | nil =>
      simp only [List.mem_singleton] at hw
      subst hw
      simp only [List.mem_singleton] at hd
      subst hd
      exact hg
    | cons w0 ws =>
      rcases List.mem_cons.mp hw with rfl | hw
      · rcases List.mem_cons.mp hd with rfl | hd
        · exact hg
        · exact hacc w0 (List.mem_cons_self _ _) d hd
      · exact hacc w (List.mem_cons_of_mem _ hw) d hd
  · rw [if_neg hg] at hw
    rcases List.mem_cons.mp hw with rfl | hw
    · cases hd
    · exact hacc w hw d hd

/-- Every character of every word of `toWords l` is a word character. -/
theorem toWords_chars (l : List Char) :
    ∀ w ∈ toWords l, ∀ d ∈ w, isWordChar d = true := by
  have key : ∀ w ∈ l.foldr splitAux [[]], ∀ d ∈ w, isWordChar d = true := by
    induction l with
    | nil =>
      intro w hw d hd
      simp only [List.foldr_nil, List.mem_singleton] at hw
      subst hw
      cases hd
    | cons c l ih =>
      simp only [List.foldr_cons]
      exact splitAux_chars ih
  intro w hw
  exact key w (List.mem_of_mem_filter hw)

/-- Every word of `toWords l` is nonempty. -/
theorem toWords_ne_nil (l : List Char) : ∀ w ∈ toWords l, w ≠ [] := by
  intro w hw
  have := List.of_mem_filter hw
  simpa [List.isEmpty_iff] using this

/-- Folding `splitAux` over a whole word prepends it to the open word of the
accumulator. -/
theorem foldr_splitAux_word {w : List Char}
    (hw : ∀ c ∈ w, isWordChar c = true) (v : List Char)
    (vs : List (List Char)) :
    w.foldr splitAux (v :: vs) = (w ++ v) :: vs := by
  induction w with
  | nil => rfl
  | cons c w ih =>
    have hc : isWordChar c = true := hw c (List.mem_cons_self _ _)
    have hup : upChar c = c := upChar_of_isWordChar hc
    have ih' := ih fun d hd => hw d (List.mem_cons_of_mem _ hd)
    simp only [List.foldr_cons, ih']
    unfold splitAux
    rw [hup, if_pos hc]
    rfl

/-- Folding `splitAux` over spaced-out words recovers those words. -/
theorem foldr_splitAux_unwords (ws : List (List Char))
    (h : ∀ w ∈ ws, ∀ c ∈ w, isWordChar c = true) :
    (unwords ws).foldr splitAux [[]] = if ws = [] then [[]] else ws := by
  induction ws with
  | nil => rfl
  | cons w ws ih =>
    have hw : ∀ c ∈ w, isWordChar c = true := h w (List.mem_cons_self _ _)
    cases ws with
    | nil =>
      show w.foldr splitAux [[]] = _
      rw [foldr_splitAux_word hw [] []]
      simp
    | cons w2 ws2 =>
      have hrest : ∀ u ∈ w2 :: ws2, ∀ c ∈ u, isWordChar c = true :=
        fun u hu => h u (List.mem_cons_of_mem _ hu)
      have ih' := ih hrest
      rw [if_neg (List.cons_ne_nil _ _)] at ih'
      have hstep : unwords (w :: w2 :: ws2) = w ++ ' ' :: unwords (w2 :: ws2) :=
        rfl
      rw [hstep, List.foldr_append, List.foldr_cons, ih']
      have hsp : splitAux ' ' (w2 :: ws2) = [] :: w2 :: ws2 := by
        unfold splitAux
        rw [if_neg (by decide)]
      rw [hsp, foldr_splitAux_word hw [] (w2 :: ws2),
        if_neg (List.cons_ne_nil _ _)]
      simp

/-- Splitting the rejoined words gives back the words: the round trip that
makes normalization idempotent. -/
theorem toWords_unwords (ws : List (List Char)) (hne : ∀ w ∈ ws, w ≠ [])
    (hch : ∀ w ∈ ws, ∀ c ∈ w, isWordChar c = true) :
    toWords (unwords ws) = ws := by
  unfold toWords
  rw [foldr_splitAux_unwords ws hch]
  cases ws with
  | nil => rfl
  | cons w ws =>
    rw [if_neg (List.cons_ne_nil _ _)]
    apply List.filter_eq_self.mpr
    intro u hu
    have := hne u hu
    simpa [List.isEmpty_iff] using this

/-- No expansion target is itself an abbreviation: the table maps into
canonical forms only. -/
theorem abbrev_values_not_keys :
    ∀ p ∈ abbrevTable,
      abbrevTable.find? (fun q => decide (q.1 = p.2)) = none := by
  decide

/-- Expansion targets are nonempty uppercase words and never unit
designators. -/
theorem abbrev_values_good :
    ∀ p ∈ abbrevTable,
      p.2 ≠ [] ∧ (∀ c ∈ p.2, isWordChar c = true) ∧ p.2 ∉ unitWords := by
  decide

/-- Expanding a word twice is the same as expanding it once. -/
theorem expandWord_idem (w : List Char) :
    expandWord (expandWord w) = expandWord w := by
  rcases h : abbrevTable.find? (fun p => decide (p.1 = w)) with _ | p
  · have hw : expandWord w = w := by rw [expandWord, h]
    rw [hw]
    exact hw
  · have hw : expandWord w = p.2 := by rw [expandWord, h]
    have hp : p ∈ abbrevTable := List.mem_of_find?_eq_some h
    rw [hw, expandWord, abbrev_values_not_keys p hp]

/-- An expanded word is the original word or a table value. -/
theorem expandWord_cases (w : List Char) :
    expandWord w = w ∨ ∃ p ∈ abbrevTable, expandWord w = p.2 := by
  rcases h : abbrevTable.find? (fun p => decide (p.1 = w)) with _ | p
  · left
    rw [expandWord, h]
  · right
    exact ⟨p, List.mem_of_find?_eq_some h, by rw [expandWord, h]⟩

/-- Mapping a function that fixes every element of a list is the identity. -/
theorem map_fixpoints {α : Type} (f : α → α) (l : List α)
    (h : ∀ x ∈ l, f x = x) : l.map f = l := by
  induction l with
  | nil => rfl
  | cons x l ih =>
    rw [List.map_cons, h x (List.mem_cons_self _ _),
      ih fun y hy => h y (List.mem_cons_of_mem _ hy)]

/-- `takeWhile` keeps a list whose every element satisfies the predicate. -/
theorem takeWhile_of_all {α : Type} (p : α → Bool) (l : List α)
    (h : ∀ x ∈ l, p x = true) : l.takeWhile p = l := by
  induction l with
  | nil => rfl
  | cons x l ih =>
    rw [List.takeWhile_cons, h x (List.mem_cons_self _ _)]
    simp only [ite_true]
    rw [ih fun y hy => h y (List.mem_cons_of_mem _ hy)]

/-- C2: normalization is idempotent — normalizing an already-normalized
address string changes nothing; as a Lean function it is pure and
deterministic in its input string by construction. -/
theorem normalizeAddress_idem (s : String) :
    normalizeAddress (normalizeAddress s) = normalizeAddress s := by
  unfold normalizeAddress
  apply congrArg String.mk
  apply congrArg unwords
  set ws2 := (stripUnits (toWords s.data)).map expandWord with hws2
  have hmem : ∀ w ∈ ws2, ∃ w', w' ∈ toWords s.data ∧ w = expandWord w' := by
    intro w hw
    rw [hws2] at hw
    rcases List.mem_map.mp hw with ⟨w', hw', rfl⟩
    exact ⟨w', (List.takeWhile_sublist _).subset hw', rfl⟩
  have hne : ∀ w ∈ ws2, w ≠ [] := by
    intro w hw
    rcases hmem w hw with ⟨w', hw', rfl⟩
    rcases expandWord_cases w' with he | ⟨p, hp, he⟩
    · rw [he]
      exact toWords_ne_nil _ w' hw'
    · rw [he]
      exact (abbrev_values_good p hp).1
  have hch : ∀ w ∈ ws2, ∀ c ∈ w, isWordChar c = true := by
    intro w hw
    rcases hmem w hw with ⟨w', hw', rfl⟩
    rcases expandWord_cases w' with he | ⟨p, hp, he⟩
    · rw [he]
      exact toWords_chars _ w' hw'
    · rw [he]
      exact (abbrev_values_good p hp).2.1
  have hnu : ∀ w ∈ ws2, decide (w ∈ unitWords) = false := by
    intro w hw
    rw [hws2] at hw
    rcases List.mem_map.mp hw with ⟨w', hw', rfl⟩
    have hkeep : w' ∉ unitWords := by
      simpa using List.mem_takeWhile_imp hw'
    rcases expandWord_cases w' with he | ⟨p, hp, he⟩
    · rw [he, decide_eq_false_iff_not]
      exact hkeep
    · rw [he, decide_eq_false_iff_not]
      exact (abbrev_values_good p hp).2.2
  have hfix : ∀ w ∈ ws2, expandWord w = w := by
    intro w hw
    rcases hmem w hw with ⟨w', _, rfl⟩
    exact expandWord_idem w'
  rw [show (String.mk (unwords ws2)).data = unwords ws2 from rfl]
  rw [toWords_unwords ws2 hne hch]
  unfold stripUnits
  rw [takeWhile_of_all _ ws2 (by intro w hw; rw [hnu w hw]; rfl)]
  exact map_fixpoints _ _ hfix

/-! ## PO-Box and commercial-keyword patterns, modelled from the spec -/

/-- A purely numeric, nonempty word. -/
def wordIsDigits (w : List Char) : Bool := !w.isEmpty && w.all Char.isDigit

/-- Scan a word list for the PO-Box pattern family: "PO BOX", "P O BOX"
(covering "P.O. BOX" after punctuation stripping) or "BOX" followed by
digits. -/
def scanPoBox : List (List Char) → Bool
  | w1 :: w2 :: rest =>
      (decide (w1 = "PO".data) && decide (w2 = "BOX".data)) ||
      (decide (w1 = "P".data) &&
        (match rest with
         | w3 :: _ => decide (w2 = "O".data) && decide (w3 = "BOX".data)
         | [] => false)) ||
      (decide (w1 = "BOX".data) && wordIsDigits w2) ||
      scanPoBox (w2 :: rest)
  | _ => false

/-- Modelled from the spec: `is_po_box_style(raw)` — "true iff the address
matches a PO-Box pattern family (e.g., "PO BOX", "P.O. BOX", "P O BOX",
"BOX <digits>") regardless of case/punctuation variation". -/
def is_po_box_style (raw : String) : Bool := scanPoBox (toWords raw.data)

/-- Modelled from the spec: the commercial-mail keyword list "(PMB, UPS
STORE, MAIL CENTER, USPS, POST OFFICE, and similar)", kept as data. -/
def keywordList : List (List (List Char)) :=
  [["PMB".data],
   ["UPS".data, "STORE".data],
   ["MAIL".data, "CENTER".data],
   ["USPS".data],
   ["POST".data, "OFFICE".data]]

/-- Does the word sequence start with the given keyword sequence? -/
def seqStartsWith : List (List Char) → List (List Char) → Bool
  | [], _ => true
  | _ :: _, [] => false
  | k :: ks, w :: ws => decide (k = w) && seqStartsWith ks ws

/-- Does the keyword sequence occur contiguously in the word sequence? -/
def seqContains (kw : List (List Char)) : List (List Char) → Bool
  | [] => seqStartsWith kw []
  | w :: ws => seqStartsWith kw (w :: ws) || seqContains kw ws

/-- Modelled from the spec: `has_commercial_keyword(raw)` — true iff the
normalized address contains a keyword-list entry as a bounded (whole-word)
occurrence. -/
def has_commercial_keyword (raw : String) : Bool :=
  keywordList.any fun kw => seqContains kw (toWords raw.data)

/-! ## Facility gazetteer, modelled from the spec -/

/-- Modelled from the spec: `FacilityRecord` (§3) — a reference facility
with its derived normalized fields and coordinates. -/
structure FacilityRecord where
  name : String
  raw_address : String
  normalized_address : String
  city : String
  normalized_city : String
  zip5 : String
  latitude : Int
  longitude : Int
deriving DecidableEq

/-- Modelled from the spec: the Gazetteer load phase normalizes each parsed
facility ("parse into FacilityRecords, normalize each"). -/
def mkFacilityRecord (name rawAddr city zipField : String)
    (lat long : Int) : FacilityRecord :=
  { name := name
    raw_address := rawAddr
    normalized_address := normalizeAddress rawAddr
    city := city
    normalized_city := normalizeAddress city
    zip5 := zip5 zipField
    latitude := lat
    longitude := long }

/-- Modelled from the spec: `GazetteerIndex` — the two mappings
`(address_key, city_key) → FacilityRecord` and `(address_key, zip5) →
facilities`, here as association lists (zip collisions stay as repeated
keys; a lookup returns the first-loaded candidate). -/
structure GazetteerIndex where
  cityIdx : List ((String × String) × FacilityRecord)
  zipIdx : List ((String × String) × FacilityRecord)

/-- Modelled from the spec: `build_index(facilities)` populates the two
mappings from the normalized facility fields. -/
def build_index (facilities : List FacilityRecord) : GazetteerIndex :=
  { cityIdx := facilities.map fun f => ((f.normalized_address, f.normalized_city), f)
    zipIdx := facilities.map fun f => ((f.normalized_address, f.zip5), f) }

/-- Modelled from the spec: `MatchResult` — tier "city", tier "zip", or no
facility match. -/
inductive MatchResult where
  | city (f : FacilityRecord)
  | zip (f : FacilityRecord)
  | none
deriving DecidableEq

/-- Is this a city-tier match? -/
def MatchResult.isCity : MatchResult → Bool
  | .city _ => true
  | _ => false

/-- Is this a zip-tier match? -/
def MatchResult.isZip : MatchResult → Bool
  | .zip _ => true
  | _ => false

/-- The facility attached to a match, if any. -/
def MatchResult.facility : MatchResult → Option FacilityRecord
  | .city f => some f
  | .zip f => some f
  | .none => Option.none

/-- Modelled from the spec: `lookup(address_key, city_key, zip5)` — the
city-tier index is consulted first; only on a miss is the zip-tier index
consulted. -/
def lookup (g : GazetteerIndex) (address_key city_key z : String) :
    MatchResult :=
  match g.cityIdx.find? fun e => decide (e.1 = (address_key, city_key)) with
  | some e => .city e.2
  | Option.none =>
    match g.zipIdx.find? fun e => decide (e.1 = (address_key, z)) with
    | some e => .zip e.2
    | Option.none => .none

/-! ## Record classifier, modelled from the spec -/

/-- Modelled from the spec: `InputRecord` — the fields of a voter-file row
the engine reads. -/
structure InputRecord where
  id : String
  address : String
  city : String
  zip : String
deriving DecidableEq

/-- Modelled from the spec: `FlagResult` (§3). -/
structure FlagResult where
  facility_street_match : Bool
  po_box_style : Bool
  commercial_keyword : Bool
  match_reason : List String
  matched_facility : Option FacilityRecord
  latitude : Option Int
  longitude : Option Int
deriving DecidableEq

/-- The reason tag contributed by the facility tier, first in
`match_reason`. -/
def facilityTags : MatchResult → List String
  | .city _ => ["facility_street_city"]
  | .zip _ => ["facility_street_zip"]
  | .none => []

/-- Modelled from the spec: `classify(record, gazetteer)` (§4.3) — compute
the normalized key, look it up (city tier before zip tier), then evaluate
the PO-Box and keyword flags independently; `match_reason` is the ordered
concatenation of every true flag's tag. -/
def classify (r : InputRecord) (g : GazetteerIndex) : FlagResult :=
  let k := normalizeKey r.address r.city r.zip
  let m := lookup g k.address_key k.city_key k.zip5
  let pb := is_po_box_style r.address
  let ck := has_commercial_keyword r.address
  { facility_street_match := m.isCity || m.isZip
    po_box_style := pb
    commercial_keyword := ck
    match_reason := facilityTags m ++
      (if pb then ["po_box_style"] else []) ++
      (if ck then ["commercial_keyword"] else [])
    matched_facility := m.facility
    latitude := m.facility.map fun f => f.latitude
    longitude := m.facility.map fun f => f.longitude }

/-- A record is flagged iff at least one of the three flags is true. -/
def flaggedB (fr : FlagResult) : Bool :=
  fr.facility_street_match || fr.po_box_style || fr.commercial_keyword

/-! ## Gazetteer and classifier theorems -/

/-- A keyed `find?` over an association list misses exactly when no entry
carries the key. -/
theorem find?_key_none {α β : Type} [DecidableEq α]
    (l : List (α × β)) (k : α) :
    l.find? (fun e => decide (e.1 = k)) = Option.none ↔
      ¬ ∃ f, (k, f) ∈ l := by
  rw [List.find?_eq_none]
  constructor
  · rintro h ⟨f, hf⟩
    have := h (k, f) hf
    simp at this
  · intro h e he
    rw [decide_eq_true_iff]
    intro hek
    rcases e with ⟨ek, ef⟩
    exact h ⟨ef, by rw [← hek]; exact he⟩

/-- A keyed `find?` that hits exhibits an entry carrying the key. -/
theorem find?_key_some {α β : Type} [DecidableEq α]
    {l : List (α × β)} {k : α} {e : α × β}
    (h : l.find? (fun e => decide (e.1 = k)) = some e) :
    e.1 = k ∧ (k, e.2) ∈ l := by
  have hmem := List.mem_of_find?_eq_some h
  have hp := List.find?_some h
  rw [decide_eq_true_iff] at hp
  refine ⟨hp, ?_⟩
  rcases e with ⟨ek, ef⟩
  cases hp
  exact hmem

/-- C3: `lookup` reports tier "city" exactly when the city-tier index holds
the key, tier "zip" exactly when the city tier misses and the zip-tier index
holds the key, and no match exactly when both miss — the city tier is always
consulted first and suppresses the zip tier. -/
theorem lookup_city_before_zip (g : GazetteerIndex) (a c z : String) :
    ((lookup g a c z).isCity = true ↔ ∃ f, ((a, c), f) ∈ g.cityIdx) ∧
    ((lookup g a c z).isZip = true ↔
      (¬ (∃ f, ((a, c), f) ∈ g.cityIdx) ∧ ∃ f, ((a, z), f) ∈ g.zipIdx)) ∧
    (lookup g a c z = .none ↔
      (¬ (∃ f, ((a, c), f) ∈ g.cityIdx) ∧ ¬ ∃ f, ((a, z), f) ∈ g.zipIdx)) := by
  rcases hc : g.cityIdx.find? (fun e => decide (e.1 = (a, c))) with _ | ec
  · have hcn : ¬ ∃ f, ((a, c), f) ∈ g.cityIdx := (find?_key_none _ _).mp hc
    rcases hz : g.zipIdx.find? (fun e => decide (e.1 = (a, z))) with _ | ez
    · have hzn : ¬ ∃ f, ((a, z), f) ∈ g.zipIdx := (find?_key_none _ _).mp hz
      have hl : lookup g a c z = .none := by rw [lookup, hc, hz]
      rw [hl]
      refine ⟨?_, ?_, ?_⟩
      · simp only [MatchResult.isCity, Bool.false_eq_true, false_iff]
        exact hcn
      · simp only [MatchResult.isZip, Bool.false_eq_true, false_iff]
        rintro ⟨-, hex⟩
        exact hzn hex
      · simp only [true_iff]
        exact ⟨hcn, hzn⟩
    · have hzs := find?_key_some hz
      have hl : lookup g a c z = .zip ez.2 := by rw [lookup, hc, hz]
      rw [hl]
      refine ⟨?_, ?_, ?_⟩
      · simp only [MatchResult.isCity, Bool.false_eq_true, false_iff]
        exact hcn
      · simp only [MatchResult.isZip, true_iff]
        exact ⟨hcn, ez.2, hzs.2⟩
      · constructor
        · intro hx
          exact MatchResult.noConfusion hx
        · rintro ⟨-, h2⟩
          exact absurd ⟨ez.2, hzs.2⟩ h2
  · have hcs := find?_key_some hc
    have hl : lookup g a c z = .city ec.2 := by rw [lookup, hc]
    rw [hl]
    refine ⟨?_, ?_, ?_⟩
    · simp only [MatchResult.isCity, true_iff]
      exact ⟨ec.2, hcs.2⟩
    · simp only [MatchResult.isZip, Bool.false_eq_true, false_iff]
      rintro ⟨hno, -⟩
      exact hno ⟨ec.2, hcs.2⟩
    · simp only [reduceCtorEq, false_iff, not_and]
      intro hno
      exact absurd ⟨ec.2, hcs.2⟩ hno

/-- C4: the three flags are evaluated independently — the PO-Box and keyword
flags equal their standalone predicates whatever the facility lookup said,
so one result can carry several true flags — and `match_reason` is the
ordered concatenation of exactly the true flags' tags: facility tier tag
first, then "po_box_style", then "commercial_keyword". -/
theorem classify_flags_independent (r : InputRecord) (g : GazetteerIndex) :
    (classify r g).po_box_style = is_po_box_style r.address ∧
    (classify r g).commercial_keyword = has_commercial_keyword r.address ∧
    ((classify r g).facility_street_match = true ↔
      facilityTags
        (lookup g (normalizeAddress r.address) (normalizeAddress r.city)
          (zip5 r.zip)) ≠ []) ∧
    (classify r g).match_reason =
      facilityTags
        (lookup g (normalizeAddress r.address) (normalizeAddress r.city)
          (zip5 r.zip)) ++
      (if (classify r g).po_box_style then ["po_box_style"] else []) ++
      (if (classify r g).commercial_keyword then ["commercial_keyword"]
        else []) := by
  unfold classify normalizeKey
  refine ⟨rfl, rfl, ?_, rfl⟩
  cases hm : lookup g (normalizeAddress r.address) (normalizeAddress r.city)
      (zip5 r.zip) <;>
    simp [hm, MatchResult.isCity, MatchResult.isZip, facilityTags]

/-- A gazetteer holding exactly the facility of the spec's worked example. -/
def exampleFacility : FacilityRecord :=
  mkFacilityRecord "COLUMBUS MAIN PO" "123 MAIN STREET" "COLUMBUS" "43215"
    399833 (-829983)

/-- The one-facility gazetteer of the worked example. -/
def exampleGazetteer : GazetteerIndex := build_index [exampleFacility]

/-- The input record of the spec's worked example. -/
def exampleRecord : InputRecord := ⟨"V100", "123 Main St", "Columbus", "43215-1234"⟩

/-- C5: classifying `{address: "123 Main St", city: "Columbus", zip:
"43215-1234"}` against a gazetteer holding `{address: "123 MAIN STREET",
city: "COLUMBUS", zip5: "43215"}` sets `facility_street_match`, puts
`"facility_street_city"` in `match_reason`, and attaches the facility's
coordinates — exercising ST→STREET expansion, case folding, and the zip5
prefix of the zip field. -/
theorem classify_worked_example :
    (classify exampleRecord exampleGazetteer).facility_street_match = true ∧
    "facility_street_city" ∈
      (classify exampleRecord exampleGazetteer).match_reason ∧
    (classify exampleRecord exampleGazetteer).latitude =
      some exampleFacility.latitude ∧
    (classify exampleRecord exampleGazetteer).longitude =
      some exampleFacility.longitude := by
  refine ⟨by decide, ?_, by decide, by decide⟩
  have h : (classify exampleRecord exampleGazetteer).match_reason =
      ["facility_street_city"] := by decide
  rw [h]
  exact List.mem_singleton.mpr rfl

/-! ## Chunked pipeline, modelled from the spec -/

/-- Modelled from the spec: the pipeline `Summary` counters the claims test —
total rows seen, rows flagged, and parse errors. -/
structure Summary where
  total_rows : Nat
  flagged_rows : Nat
  parse_errors : Nat
deriving DecidableEq

/-- The all-zero summary a run starts from. -/
def Summary.empty : Summary := ⟨0, 0, 0⟩

/-- Modelled from the spec: parsing one raw row into an `InputRecord` —
"an explicit record schema validated at the parse boundary"; a row with the
wrong column count fails (`RowParseError`). -/
def parseRow : List String → Option InputRecord
  | [i, a, c, z] => some ⟨i, a, c, z⟩
  | _ => Option.none

/-- A row of the output sink: the record together with its flags. -/
abbrev OutputRow := InputRecord × FlagResult

/-- What one raw row contributes to the output: nothing when it fails to
parse or is unflagged, its classified record when flagged. -/
def emitRow (g : GazetteerIndex) (row : List String) : Option OutputRow :=
  match parseRow row with
  | Option.none => Option.none
  | some r =>
    let fr := classify r g
    if flaggedB fr then some (r, fr) else Option.none

/-- Modelled from the spec: processing of one row — a parse failure is
counted and skipped, a flagged record is appended to the sink, an unflagged
record is dropped; the run never aborts. -/
def step (g : GazetteerIndex) (acc : Summary × List OutputRow)
    (row : List String) : Summary × List OutputRow :=
  match parseRow row with
  | Option.none =>
    ({ acc.1 with
        total_rows := acc.1.total_rows + 1
        parse_errors := acc.1.parse_errors + 1 }, acc.2)
  | some r =>
    let fr := classify r g
    if flaggedB fr then
      ({ acc.1 with
          total_rows := acc.1.total_rows + 1
          flagged_rows := acc.1.flagged_rows + 1 }, acc.2 ++ [(r, fr)])
    else
      ({ acc.1 with total_rows := acc.1.total_rows + 1 }, acc.2)

/-- Split a list into batches of `b` (a last short batch allowed); `b ≤ 1`
degenerates to singleton batches. -/
def chunksOf {α : Type} (b : Nat) (l : List α) : List (List α) :=
  match l with
  | [] => []
  | x :: xs => (x :: xs.take (b - 1)) :: chunksOf b (xs.drop (b - 1))
termination_by l.length
decreasing_by simp [List.length_drop]; omega

/-- Modelled from the spec: one batch is classified row by row,
accumulating counters and appending flagged rows to the sink. -/
def processBatch (g : GazetteerIndex) (acc : Summary × List OutputRow)
    (batch : List (List String)) : Summary × List OutputRow :=
  batch.foldl (step g) acc

/-- Modelled from the spec: one input file is read "in fixed-size batches of
`batch_size`", each batch processed in turn. -/
def runFile (g : GazetteerIndex) (b : Nat) (acc : Summary × List OutputRow)
    (rows : List (List String)) : Summary × List OutputRow :=
  (chunksOf b rows).foldl (processBatch g) acc

/-- Modelled from the spec: `run(input_paths, gazetteer, sink, batch_size)` —
"opens each input path in turn", threading the summary and the output sink
through every file. -/
def run (g : GazetteerIndex) (b : Nat)
    (files : List (List (List String))) : Summary × List OutputRow :=
  files.foldl (runFile g b) (Summary.empty, [])

/-! ## Pipeline lemmas -/

/-- The batches of a list concatenate back to the list. -/
theorem chunksOf_flatten {α : Type} (b : Nat) (l : List α) :
    (chunksOf b l).flatten = l := by
  generalize hn : l.length = n
  induction n using Nat.strong_induction_on generalizing l with
  | _ n ih =>
    cases l with
    | nil => rw [chunksOf]; rfl
    | cons x xs =>
      rw [chunksOf]
      simp only [List.flatten_cons]
      rw [ih (xs.drop (b - 1)).length
        (by subst hn; simp [List.length_drop]; omega) _ rfl]
      rw [List.cons_append, List.take_append_drop]

/-- Folding over the concatenation is folding batch by batch. -/
theorem foldl_foldl_flatten {α β : Type} (f : β → α → β) (L : List (List α))
    (init : β) :
    L.foldl (fun acc l => l.foldl f acc) init = L.flatten.foldl f init := by
  induction L generalizing init with
  | nil => rfl
  | cons l L ih => simp [List.foldl_append, ih]

/-- Batching does not change what a file's rows produce. -/
theorem runFile_eq_foldl (g : GazetteerIndex) (b : Nat)
    (acc : Summary × List OutputRow) (rows : List (List String)) :
    runFile g b acc rows = rows.foldl (step g) acc := by
  unfold runFile processBatch
  rw [foldl_foldl_flatten (step g) (chunksOf b rows) acc, chunksOf_flatten]

/-- One fold over rows: counters add up and the sink gains exactly the
emitted rows, in order. -/
theorem foldl_step_spec (g : GazetteerIndex) (l : List (List String))
    (s : Summary) (out : List OutputRow) :
    l.foldl (step g) (s, out) =
      ({ total_rows := s.total_rows + l.length
         flagged_rows := s.flagged_rows + (l.filterMap (emitRow g)).length
         parse_errors := s.parse_errors +
           l.countP fun row => (parseRow row).isNone },
       out ++ l.filterMap (emitRow g)) := by
  induction l generalizing s out with
  | nil => simp
  | cons row l ih =>
    rw [List.foldl_cons]
    rcases hp : parseRow row with _ | r
    · have hstep : step g (s, out) row =
          (⟨s.total_rows + 1, s.flagged_rows, s.parse_errors + 1⟩, out) := by
        rw [step, hp]
      have hemit : emitRow g row = Option.none := by rw [emitRow, hp]
      rw [hstep, ih]
      simp [List.countP_cons, hp, hemit, List.filterMap_cons,
        Prod.mk.injEq, Summary.mk.injEq]
      omega
    · have hemit : emitRow g row =
          (if flaggedB (classify r g) then some (r, classify r g)
            else Option.none) := by
        rw [emitRow, hp]
      by_cases hf : flaggedB (classify r g) = true
      · have hstep : step g (s, out) row =
            (⟨s.total_rows + 1, s.flagged_rows + 1, s.parse_errors⟩,
              out ++ [(r, classify r g)]) := by
          rw [step, hp]
          simp [hf]
        rw [hstep, ih]
        simp [List.countP_cons, hp, hemit, hf, List.filterMap_cons,
          Prod.mk.injEq, Summary.mk.injEq]
        omega
      · have hstep : step g (s, out) row =
            (⟨s.total_rows + 1, s.flagged_rows, s.parse_errors⟩, out) := by
          rw [step, hp]
          simp [hf]
        have hemit' : emitRow g row = Option.none := by
          rw [hemit, if_neg hf]
        rw [hstep, ih]
        simp [List.countP_cons, hp, hemit', List.filterMap_cons,
          Prod.mk.injEq, Summary.mk.injEq]
        omega

/-- The whole run in closed form: counters over all rows of all files, and
the output is the in-order emission over the concatenated files. -/
theorem run_spec (g : GazetteerIndex) (b : Nat)
    (files : List (List (List String))) :
    run g b files =
      ({ total_rows := files.flatten.length
         flagged_rows := (files.flatten.filterMap (emitRow g)).length
         parse_errors :=
           files.flatten.countP fun row => (parseRow row).isNone },
       files.flatten.filterMap (emitRow g)) := by
  unfold run
  have hrf : runFile g b = fun acc rows => rows.foldl (step g) acc :=
    funext fun acc => funext fun rows => runFile_eq_foldl g b acc rows
  rw [hrf, foldl_foldl_flatten (step g) files (Summary.empty, [])]
  rw [show (Summary.empty, ([] : List OutputRow)) =
    ((⟨0, 0, 0⟩ : Summary), ([] : List OutputRow)) from rfl]
  rw [foldl_step_spec]
  simp

/-- Emission over concatenated files splits file by file. -/
theorem filterMap_flatten {α β : Type} (f : α → Option β)
    (L : List (List α)) :
    L.flatten.filterMap f = (L.map fun l => l.filterMap f).flatten := by
  induction L with
  | nil => rfl
  | cons l L ih => simp [List.filterMap_append, ih]

/-- Parse failure emits nothing. -/
theorem emitRow_parse_none {g : GazetteerIndex} {row : List String}
    (hp : parseRow row = Option.none) : emitRow g row = Option.none := by
  rw [emitRow, hp]

/-- A parsed row emits its classification exactly when flagged. -/
theorem emitRow_parse_some {g : GazetteerIndex} {row : List String}
    {r : InputRecord} (hp : parseRow row = some r) :
    emitRow g row =
      (if flaggedB (classify r g) then some (r, classify r g)
        else Option.none) := by
  rw [emitRow, hp]

/-- C1: a record appears in the run's output exactly when its row parses and
at least one of the three flags is true of its classification; a record with
all three flags false is never emitted, and the flagged count never exceeds
the total count. -/
theorem run_output_iff_flagged (g : GazetteerIndex) (b : Nat)
    (files : List (List (List String))) (o : OutputRow) :
    (o ∈ (run g b files).2 ↔
      ∃ row, row ∈ files.flatten ∧ parseRow row = some o.1 ∧
        classify o.1 g = o.2 ∧
        (o.2.facility_street_match || o.2.po_box_style ||
          o.2.commercial_keyword) = true) ∧
    (run g b files).1.flagged_rows ≤ (run g b files).1.total_rows := by
  rw [run_spec]
  constructor
  · rw [List.mem_filterMap]
    constructor
    · rintro ⟨row, hrow, hemit⟩
      refine ⟨row, hrow, ?_⟩
      rcases hp : parseRow row with _ | r
      · rw [emitRow_parse_none hp] at hemit
        exact Option.noConfusion hemit
      · rw [emitRow_parse_some hp] at hemit
        by_cases hf : flaggedB (classify r g) = true
        · rw [if_pos hf] at hemit
          have ho : (r, classify r g) = o := Option.some.inj hemit
          rw [← ho]
          exact ⟨rfl, rfl, hf⟩
        · rw [if_neg hf] at hemit
          exact Option.noConfusion hemit
    · rintro ⟨row, hrow, hp, hc, hf⟩
      refine ⟨row, hrow, ?_⟩
      have hfB : flaggedB (classify o.1 g) = true := by
        rw [hc]
        exact hf
      rw [emitRow_parse_some hp, if_pos hfB, hc]
  · show (files.flatten.filterMap (emitRow g)).length ≤ files.flatten.length
    exact List.length_filterMap_le _ _

/-- C6: every row of every file is either classified or counted as a parse
error — the total count covers all rows, the parse-error count is exactly
the unparseable rows, and the two split the total with the classified
rows — so a malformed row never aborts the run. -/
theorem run_counts_every_row (g : GazetteerIndex) (b : Nat)
    (files : List (List (List String))) :
    (run g b files).1.total_rows = files.flatten.length ∧
    (run g b files).1.parse_errors =
      files.flatten.countP (fun row => (parseRow row).isNone) ∧
    (run g b files).1.total_rows =
      files.flatten.countP (fun row => (parseRow row).isSome) +
        (run g b files).1.parse_errors := by
  rw [run_spec]
  refine ⟨rfl, rfl, ?_⟩
  show files.flatten.length = _
  rw [List.length_eq_countP_add_countP fun row => (parseRow row).isSome]
  congr 1
  apply List.countP_congr
  intro row hrow
  cases parseRow row <;> rfl

/-- C7: the run's output is the concatenation, in the supplied file order,
of each file's flagged records in their original row order. -/
theorem run_preserves_order (g : GazetteerIndex) (b : Nat)
    (files : List (List (List String))) :
    (run g b files).2 =
      (files.map fun rows => rows.filterMap (emitRow g)).flatten := by
  rw [run_spec]
  exact filterMap_flatten (emitRow g) files
